import Mathlib

/-!
Verification of the TELEGAS-WS streaming-analytics core.

This file gives a shallow embedding, in Lean 4, of the parts of the
Python source that the specification claims talk about:

- the order-flow analyzer (src/src/analyzers/order_flow_analyzer.py),
- the stop-hunt detector (src/src/analyzers/stop_hunt_detector.py),
- the signal generator (src/src/signals/signal_generator.py),
- the signal validator (src/src/signals/signal_validator.py),
- the signal tracker (src/src/signals/signal_tracker.py),
- the market-context buffer and filter
  (src/src/processors/market_context_buffer.py,
   src/src/signals/market_context_filter.py),
- the chat-gating slice of TeleglasPro.analyze_and_alert (src/main.py),
- the alert queue (src/src/alerts/alert_queue.py), whose backing store
  is a Python asyncio.PriorityQueue, i.e. a binary min-heap driven by
  the heapq push/pop algorithms.

Numeric convention: Python floats are embedded as rationals, Python ints
as integers, millisecond/second wall-clock instants as rationals counted
in seconds.  Event dictionaries become a record whose optional fields
model optional dictionary keys.  All definitions are executable.
-/

/-! ## String tags used by the Python source -/

def ACCUMULATION : String := "ACCUMULATION"

def DISTRIBUTION : String := "DISTRIBUTION"

def SHORT_HUNT : String := "SHORT_HUNT"

def LONG_HUNT : String := "LONG_HUNT"

def UNKNOWN : String := "UNKNOWN"

def STOP_HUNT : String := "STOP_HUNT"

def EVENT : String := "EVENT"

def LONG : String := "LONG"

def SHORT : String := "SHORT"

def NEUTRAL : String := "NEUTRAL"

def WIN : String := "WIN"

def LOSS : String := "LOSS"

def FAVORABLE : String := "FAVORABLE"

def UNFAVORABLE : String := "UNFAVORABLE"

def CAUTION : String := "CAUTION"

def CONFIRMATION : String := "CONFIRMATION"

def SQUEEZE_RISK : String := "SQUEEZE_RISK"

def WEAK : String := "WEAK"

def MODE_STRICT : String := "strict"

def MODE_NORMAL : String := "normal"

def MODE_PERMISSIVE : String := "permissive"

/-! ## Wire events

A liquidation or trade event is a parsed JSON dictionary.  The fields the
analyzers read are side, vol, volume_usd and price; each optional field
models presence/absence of the corresponding dictionary key, and the
Python reads are of the form float(e.get(key, 0)) or
float(e.get("volume_usd", e.get("vol", 0))). -/

structure Event where
  side : ℤ
  vol : Option ℚ := none
  volume_usd : Option ℚ := none
  price : Option ℚ := none
deriving DecidableEq

/-- Embeds float(e.get("vol", 0)), the read used by the stop-hunt
detector for volumes and by both detectors for nothing else. -/
def event_vol (e : Event) : ℚ := e.vol.getD 0

/-- Embeds float(e.get("price", 0)). -/
def event_price (e : Event) : ℚ := e.price.getD 0

/-- Embeds float(trade.get("volume_usd", trade.get("vol", 0))), the read
used by OrderFlowAnalyzer.calculate_volumes and count_large_orders: the
volume_usd key takes precedence and vol is only the fallback. -/
def order_flow_vol (e : Event) : ℚ := e.volume_usd.getD (e.vol.getD 0)

/-! ## OrderFlowAnalyzer -/

/-- Embeds OrderFlowAnalyzer.calculate_volumes: one pass accumulating
buy volume (side 2) and sell volume (side 1). -/
def calculate_volumes (trades : List Event) : ℚ × ℚ :=
  trades.foldl
    (fun acc t =>
      if t.side = 2 then (acc.1 + order_flow_vol t, acc.2)
      else if t.side = 1 then (acc.1, acc.2 + order_flow_vol t)
      else acc)
    (0, 0)

/-- Embeds OrderFlowAnalyzer.count_large_orders: count events whose
volume read is at least the large-order threshold, split by side. -/
def count_large_orders (large_order_threshold : ℚ) (trades : List Event) : ℕ × ℕ :=
  trades.foldl
    (fun acc t =>
      if large_order_threshold ≤ order_flow_vol t then
        if t.side = 2 then (acc.1 + 1, acc.2)
        else if t.side = 1 then (acc.1, acc.2 + 1)
        else acc
      else acc)
    (0, 0)

/-- Embeds OrderFlowAnalyzer.determine_signal_type with the analyzer's
configured ratios (defaults 0.65 and 0.35). -/
def determine_signal_type (accumulation_r distribution_r : ℚ)
    (buy_r : ℚ) (large_buys large_sells : ℕ) : Option String :=
  if accumulation_r ≤ buy_r ∧ 3 ≤ large_buys then some ACCUMULATION
  else if buy_r ≤ distribution_r ∧ 3 ≤ large_sells then some DISTRIBUTION
  else none

/-- Embeds OrderFlowAnalyzer.calculate_confidence (tier threshold passed
in for get_volume_threshold). -/
def of_calculate_confidence (volume_threshold : ℚ) (buy_r : ℚ)
    (large_buys large_sells : ℕ) (total_volume : ℚ) (total_trades : ℕ) : ℚ :=
  let c1 : ℚ := 50
  let c2 : ℚ :=
    if 8/10 < buy_r ∨ buy_r < 2/10 then c1 + 20
    else if 75/100 < buy_r ∨ buy_r < 25/100 then c1 + 15
    else if 7/10 < buy_r ∨ buy_r < 3/10 then c1 + 10
    else if 65/100 < buy_r ∨ buy_r < 35/100 then c1 + 5
    else c1
  let dominant := max large_buys large_sells
  let c3 : ℚ :=
    if 10 ≤ dominant then c2 + 20
    else if 7 ≤ dominant then c2 + 15
    else if 5 ≤ dominant then c2 + 10
    else if 3 ≤ dominant then c2 + 5
    else c2
  let volume_r := total_volume / max volume_threshold 1
  let c4 : ℚ :=
    if 5 < volume_r then c3 + 15
    else if 5/2 < volume_r then c3 + 10
    else if 1 < volume_r then c3 + 5
    else c3
  let c5 : ℚ :=
    if 100 < total_trades then c4 + 5
    else if 50 < total_trades then c4 + 3
    else c4
  min c5 99

/-- Order-flow signal record (the fields of OrderFlowSignal the claims
touch; symbol, window and timestamp strings are omitted). -/
structure OrderFlowSignal where
  buy_volume : ℚ
  sell_volume : ℚ
  buy_r : ℚ
  large_buys : ℕ
  large_sells : ℕ
  signal_type : String
  confidence : ℚ
  total_trades : ℕ
  net_delta : ℚ
deriving DecidableEq

/-- Embeds OrderFlowAnalyzer.analyze on an already-windowed trade list
(window fetching is BufferManager.get_trades): require at least 10
trades, compute volumes, ratio and large-order counts, then emit a
signal exactly when determine_signal_type does. -/
def order_flow_analyze (large_order_threshold accumulation_r distribution_r
    volume_threshold : ℚ) (trades : List Event) : Option OrderFlowSignal :=
  if trades.length < 10 then none
  else
    let vols := calculate_volumes trades
    let total := vols.1 + vols.2
    if total = 0 then none
    else
      let r := vols.1 / total
      let lg := count_large_orders large_order_threshold trades
      match determine_signal_type accumulation_r distribution_r r lg.1 lg.2 with
      | none => none
      | some st =>
          some ⟨vols.1, vols.2, r, lg.1, lg.2, st,
                of_calculate_confidence volume_threshold r lg.1 lg.2 total trades.length,
                trades.length, vols.1 - vols.2⟩

/-- The buy ratio of a trade window as the analyzer computes it
(division by a zero total yields 0 in the rational embedding; analyze
returns early in that case). -/
def buy_ratio (trades : List Event) : ℚ :=
  (calculate_volumes trades).1 / ((calculate_volumes trades).1 + (calculate_volumes trades).2)

/-- Sell-volume sum stated spec-style via filter and map, used to relate
the one-pass fold to per-side sums. -/
def side_volume_sum (s : ℤ) (trades : List Event) : ℚ :=
  ((trades.filter (fun t => decide (t.side = s))).map order_flow_vol).sum

/-! ## StopHuntDetector -/

/-- Embeds StopHuntDetector.calculate_total_volume. -/
def calculate_total_volume (liqs : List Event) : ℚ :=
  liqs.foldl (fun acc l => acc + event_vol l) 0

/-- Embeds StopHuntDetector.determine_direction: one pass accumulating
(long count, short count, long volume, short volume); the counts are
computed by the source but unused.  Side 1 is a liquidated long, side 2
a liquidated short. -/
def determine_direction (liqs : List Event) : String × ℚ :=
  let acc := liqs.foldl
    (fun (a : ℕ × ℕ × ℚ × ℚ) l =>
      if l.side = 1 then (a.1 + 1, a.2.1, a.2.2.1 + event_vol l, a.2.2.2)
      else if l.side = 2 then (a.1, a.2.1 + 1, a.2.2.1, a.2.2.2 + event_vol l)
      else a)
    (0, 0, 0, 0)
  let long_liq_volume := acc.2.2.1
  let short_liq_volume := acc.2.2.2
  let total := long_liq_volume + short_liq_volume
  if total = 0 then (UNKNOWN, 1/2)
  else if short_liq_volume < long_liq_volume then (SHORT_HUNT, long_liq_volume / total)
  else (LONG_HUNT, short_liq_volume / total)

/-- Long-side liquidation volume, spec-style. -/
def long_liq_volume (liqs : List Event) : ℚ :=
  ((liqs.filter (fun l => decide (l.side = 1))).map event_vol).sum

/-- Short-side liquidation volume, spec-style. -/
def short_liq_volume (liqs : List Event) : ℚ :=
  ((liqs.filter (fun l => decide (l.side = 2))).map event_vol).sum

/-- Embeds StopHuntDetector.check_absorption on an already-windowed
trade list: after a SHORT_HUNT sum side-2 volumes, otherwise side-1
volumes, counting only single trades strictly above
absorption_min_order_usd. -/
def check_absorption (absorption_min_order_usd : ℚ) (hunt_direction : String)
    (trades : List Event) : ℚ :=
  let target_side : ℤ := if hunt_direction = SHORT_HUNT then 2 else 1
  trades.foldl
    (fun acc t =>
      if t.side = target_side ∧ absorption_min_order_usd < event_vol t then acc + event_vol t
      else acc)
    0

/-- Embeds the absorption flag computed inside StopHuntDetector.analyze:
absorption_detected = absorption_volume >= absorption_threshold. -/
def absorption_detected (absorption_threshold absorption_min_order_usd : ℚ)
    (hunt_direction : String) (trades : List Event) : Bool :=
  absorption_threshold ≤ check_absorption absorption_min_order_usd hunt_direction trades

/-- Embeds StopHuntDetector.get_price_zone: (min, max) of the positive
prices of the cascade events, or (0, 0) when there are none. -/
def get_price_zone (liqs : List Event) : ℚ × ℚ :=
  let prices := (liqs.map event_price).filter (fun p => decide (0 < p))
  if prices.isEmpty then (0, 0)
  else (prices.foldl min (prices.headI), prices.foldl max (prices.headI))

/-! ## SignalGenerator -/

/-- Stop-hunt signal fields consumed by the generator. -/
structure StopHuntSignal where
  direction : String
  confidence : ℚ
  price_zone : ℚ × ℚ
deriving DecidableEq

/-- Event-pattern signal fields consumed by the generator. -/
structure EventSignal where
  confidence : ℚ
deriving DecidableEq

/-- Embeds SignalGenerator.signals_aligned: both signals present and
either (SHORT_HUNT, ACCUMULATION) or (LONG_HUNT, DISTRIBUTION). -/
def signals_aligned (sh : Option StopHuntSignal) (ofs : Option OrderFlowSignal) : Bool :=
  match sh, ofs with
  | some s, some o =>
      if s.direction = SHORT_HUNT ∧ o.signal_type = ACCUMULATION then true
      else if s.direction = LONG_HUNT ∧ o.signal_type = DISTRIBUTION then true
      else false
  | _, _ => false

/-- Embeds SignalGenerator.merge_confidence: accumulate the weighted sum
and total weight over the signals that are present (a None signal and an
empty event list are both falsy in the source), divide, and add the
alignment bonus capped at 99. -/
def merge_confidence (sh : Option StopHuntSignal) (ofs : Option OrderFlowSignal)
    (evs : List EventSignal) : ℚ :=
  let ws1 : ℚ := match sh with | some s => s.confidence * (50/100) | none => 0
  let tw1 : ℚ := match sh with | some _ => 50/100 | none => 0
  let ws2 : ℚ := match ofs with | some o => ws1 + o.confidence * (35/100) | none => ws1
  let tw2 : ℚ := match ofs with | some _ => tw1 + 35/100 | none => tw1
  let ws3 : ℚ :=
    if evs.isEmpty then ws2
    else ws2 + ((evs.map EventSignal.confidence).sum / (evs.length : ℚ)) * (15/100)
  let tw3 : ℚ := if evs.isEmpty then tw2 else tw2 + 15/100
  if tw3 = 0 then 0
  else
    let merged := ws3 / tw3
    if signals_aligned sh ofs then min (merged + 10) 99 else merged

/-- The fused confidence in the specification's words: a weighted average
of the available detector confidences with weights 0.50, 0.35 and 0.15
(events contribute their mean confidence), normalized by the sum of the
weights present, plus 10 capped at 99 exactly when the pair is
(SHORT_HUNT, ACCUMULATION) or (LONG_HUNT, DISTRIBUTION). -/
def spec_fused_confidence (sh : Option StopHuntSignal) (ofs : Option OrderFlowSignal)
    (evs : List EventSignal) : ℚ :=
  let weight_sum : ℚ :=
    (if sh.isSome then 1/2 else 0) + (if ofs.isSome then 7/20 else 0) +
      (if evs.isEmpty then 0 else 3/20)
  let value_sum : ℚ :=
    (match sh with | some s => (1/2) * s.confidence | none => 0) +
      (match ofs with | some o => (7/20) * o.confidence | none => 0) +
      (if evs.isEmpty then 0
       else (3/20) * ((evs.map EventSignal.confidence).sum / (evs.length : ℚ)))
  let avg := value_sum / weight_sum
  let aligned : Bool :=
    match sh, ofs with
    | some s, some o =>
        decide ((s.direction = SHORT_HUNT ∧ o.signal_type = ACCUMULATION) ∨
          (s.direction = LONG_HUNT ∧ o.signal_type = DISTRIBUTION))
    | _, _ => false
  if aligned then min (avg + 10) 99 else avg

/-- Embeds SignalGenerator.determine_signal_type_and_direction: stop
hunt dominates, then order flow, then events-only. -/
def determine_signal_type_and_direction (sh : Option StopHuntSignal)
    (ofs : Option OrderFlowSignal) : String × String :=
  match sh with
  | some s => if s.direction = SHORT_HUNT then (STOP_HUNT, LONG) else (STOP_HUNT, SHORT)
  | none =>
      match ofs with
      | some o => if o.signal_type = ACCUMULATION then (ACCUMULATION, LONG) else (DISTRIBUTION, SHORT)
      | none => (EVENT, NEUTRAL)

/-- The stop_hunt entry of the fused signal's metadata dictionary.  The
price_zone key is optional because TeleglasPro.analyze_and_alert later
creates an empty stop_hunt dictionary (setdefault for track_record) that
has no price_zone key. -/
structure StopHuntMeta where
  price_zone : Option (ℚ × ℚ)
deriving DecidableEq

/-- The slice of the fused signal's metadata the tracking path reads. -/
structure SignalMetadata where
  stop_hunt : Option StopHuntMeta
  has_order_flow : Bool
  has_events : Bool
deriving DecidableEq

/-- Embeds SignalGenerator.build_metadata: the stop_hunt entry (with its
price_zone key) exists exactly when a stop-hunt signal contributed. -/
def build_metadata (sh : Option StopHuntSignal) (ofs : Option OrderFlowSignal)
    (evs : List EventSignal) : SignalMetadata :=
  ⟨sh.map (fun s => ⟨some s.price_zone⟩), ofs.isSome, !evs.isEmpty⟩

/-! ## SignalTracker -/

/-- Embeds SignalTracker._evaluate_outcome.  A LONG position wins at or
above target, loses at or below stop, otherwise wins from halfway to
target, loses below entry, else is neutral; any other direction takes
the SHORT branch. -/
def evaluate_outcome (direction : String) (entry target sl current_price : ℚ) : String :=
  if direction = LONG then
    if target ≤ current_price then WIN
    else if current_price ≤ sl then LOSS
    else if entry + (target - entry) * (5/10) ≤ current_price then WIN
    else if current_price < entry then LOSS
    else NEUTRAL
  else
    if current_price ≤ target then WIN
    else if sl ≤ current_price then LOSS
    else if current_price ≤ entry - (entry - target) * (5/10) then WIN
    else if entry < current_price then LOSS
    else NEUTRAL

/-- A tracked signal as created by SignalTracker.track_signal (the
fields relevant to entry/stop/target bookkeeping). -/
structure TrackedSignal where
  direction : String
  entry_price : ℚ
  stop_loss : ℚ
  target_price : ℚ
deriving DecidableEq

/-! ## Market context buffer and filter -/

/-- Open-interest snapshot fields read by evaluate_context. -/
structure OISnapshot where
  current_oi_usd : ℚ
  oi_change_pct : ℚ
deriving DecidableEq

/-- Funding snapshot fields read by evaluate_context. -/
structure FundingSnapshot where
  current_rate : ℚ
deriving DecidableEq

/-- Market context record produced by evaluate_context. -/
structure MarketContext where
  current_oi_usd : ℚ
  current_funding_rate : ℚ
  oi_change_1h_pct : ℚ
  funding_alignment : String
  oi_alignment : String
  combined_assessment : String
deriving DecidableEq

/-- Embeds MarketContextBuffer._assess_funding_alignment. -/
def assess_funding_alignment (funding_rate : ℚ) (direction : String) : String :=
  if |funding_rate| < 1/10000 then NEUTRAL
  else if direction = LONG then
    if 5/10000 < funding_rate then CAUTION
    else if 0 < funding_rate then NEUTRAL
    else FAVORABLE
  else if direction = SHORT then
    if funding_rate < -(5/10000) then CAUTION
    else if funding_rate < 0 then NEUTRAL
    else FAVORABLE
  else NEUTRAL

/-- Embeds MarketContextBuffer._assess_oi_alignment. -/
def assess_oi_alignment (change_1h : ℚ) : String :=
  if 5 < change_1h then SQUEEZE_RISK
  else if 2 < change_1h then CONFIRMATION
  else if change_1h < -1 then WEAK
  else NEUTRAL

/-- Embeds MarketContextBuffer._assess_combined. -/
def assess_combined (funding_alignment oi_alignment : String) : String :=
  if funding_alignment = CAUTION then UNFAVORABLE
  else if oi_alignment = SQUEEZE_RISK then NEUTRAL
  else if funding_alignment = FAVORABLE then
    if oi_alignment = CONFIRMATION ∨ oi_alignment = NEUTRAL then FAVORABLE
    else NEUTRAL
  else NEUTRAL

/-- Embeds MarketContextBuffer.evaluate_context, with the latest stored
snapshots supplied as inputs (the buffer lookups are plain reads): no
data at all yields None, otherwise absent values default to 0 and the
three assessments are computed. -/
def evaluate_context (latest_oi : Option OISnapshot) (latest_funding : Option FundingSnapshot)
    (signal_direction : String) : Option MarketContext :=
  if latest_oi.isNone ∧ latest_funding.isNone then none
  else
    let current_oi := (latest_oi.map OISnapshot.current_oi_usd).getD 0
    let current_funding := (latest_funding.map FundingSnapshot.current_rate).getD 0
    let oi_change_1h := (latest_oi.map OISnapshot.oi_change_pct).getD 0
    let fa := assess_funding_alignment current_funding signal_direction
    let oa := assess_oi_alignment oi_change_1h
    some ⟨current_oi, current_funding, oi_change_1h, fa, oa, assess_combined fa oa⟩

/-- Result record of MarketContextFilter.evaluate (the market_context
payload and reason string are omitted). -/
structure FilterResult where
  passed : Bool
  assessment : String
  confidence_adjustment : ℚ
deriving DecidableEq

/-- Embeds MarketContextFilter.evaluate, with the buffer's evaluated
context supplied as input: pass-through on no data, otherwise compute
the confidence adjustment and the mode-dependent pass decision. -/
def filter_evaluate (mode : String) (enable_confidence_adjust : Bool)
    (context : Option MarketContext) : FilterResult :=
  match context with
  | none => ⟨true, NEUTRAL, 0⟩
  | some c =>
      let assessment := c.combined_assessment
      let conf_adj : ℚ :=
        if enable_confidence_adjust then
          if assessment = FAVORABLE then 5
          else if assessment = UNFAVORABLE then -10
          else if c.funding_alignment = FAVORABLE then 2
          else if c.oi_alignment = CONFIRMATION then 2
          else if c.oi_alignment = SQUEEZE_RISK then -3
          else 0
        else 0
      let passed : Bool :=
        if mode = MODE_STRICT then decide (assessment = FAVORABLE)
        else if mode = MODE_PERMISSIVE then true
        else decide (assessment ≠ UNFAVORABLE)
      ⟨passed, assessment, conf_adj⟩

/-! ## The analyze_and_alert slice of main.py

TeleglasPro.analyze_and_alert runs detectors, fuses, adjusts
confidence, validates, always publishes a validated signal to the
dashboard, and enqueues the formatted alert to the alert queue exactly
when the coin is active on the dashboard.  No call to
MarketContextFilter appears anywhere in main.py (the filter class is
never instantiated), so the decisions below have no context input to
read. -/

/-- Whether the run of analyze_and_alert publishes the fused signal to
the dashboard: it does whenever a signal was generated and the
validator approved it (lines 519-553 of main.py). -/
def analyze_dashboard_published (signal_generated is_valid : Bool) : Bool :=
  signal_generated && is_valid

/-- Whether the run of analyze_and_alert enqueues the alert to the
chat-bound alert queue: it does whenever a signal was generated, the
validator approved it and the coin is active on the dashboard (lines
519-564 of main.py); market context is not consulted. -/
def analyze_chat_enqueued (signal_generated is_valid coin_active : Bool) : Bool :=
  signal_generated && is_valid && coin_active

/-- Embeds the track_record setdefault on line 541 of main.py: ensure a
stop_hunt metadata entry exists (created empty, without a price_zone
key, when absent). -/
def metadata_after_track_record (m : SignalMetadata) : SignalMetadata :=
  match m.stop_hunt with
  | some _ => m
  | none => { m with stop_hunt := some ⟨none⟩ }

/-- Embeds the price-zone read on line 570 of main.py:
metadata.get(stop_hunt, empty).get(price_zone, (0, 0)). -/
def tracked_price_zone (m : SignalMetadata) : ℚ × ℚ :=
  match m.stop_hunt with
  | none => (0, 0)
  | some shm => shm.price_zone.getD (0, 0)

/-- Embeds lines 570-593 of main.py: when the zone's second component is
positive, derive entry/stop/target, append the tracked signal to the
tracker's pending list and persist it; otherwise do neither.  Returns
the new pending list and whether the signal was tracked-and-persisted. -/
def main_track_step (pending : List TrackedSignal) (direction : String)
    (m : SignalMetadata) : List TrackedSignal × Bool :=
  let pz := tracked_price_zone m
  if 0 < pz.2 then
    let zone_spread := |pz.2 - pz.1|
    let is_long := direction = LONG
    let entry := if is_long then pz.2 else pz.1
    let sl := if is_long then pz.1 - zone_spread * (3/10) else pz.2 + zone_spread * (3/10)
    let risk := |entry - sl|
    let tp := if is_long then entry + risk * 2 else entry - risk * 2
    (pending ++ [⟨direction, entry, sl, tp⟩], true)
  else (pending, false)

/-! ## SignalValidator

State: a list of approval instants (recent_signals), a cooldown map and
a recent-hash map, both keyed by strings.  Wall-clock instants are
rationals counted in seconds; the source's timedeltas of 10 minutes,
1 hour and cooldown_minutes minutes become 600, 3600 and 60 times the
configured minutes.  Dictionaries become association lists with
insert-replaces-key semantics; the md5 digest is dropped and the hash
input string itself is used as the dictionary key (md5 collisions could
only cause additional duplicate rejections, never extra approvals). -/

/-- Fused-signal fields the validator reads. -/
structure VSignal where
  symbol : String
  signal_type : String
  direction : String
  confidence : ℚ
deriving DecidableEq

/-- Rejection reason buckets of the validator. -/
inductive RejectReason where
  | low_confidence
  | duplicate
  | cooldown
  | rate_limit
deriving DecidableEq

/-- Mutable state of SignalValidator. -/
structure ValidatorState where
  recent_signals : List ℚ
  signal_cooldowns : List (String × ℚ)
  recent_hashes : List (String × ℚ)
deriving DecidableEq

/-- The state a freshly constructed validator starts from. -/
def initial_validator_state : ValidatorState := ⟨[], [], []⟩

/-- Dictionary lookup on an association list. -/
def dict_get (m : List (String × ℚ)) (k : String) : Option ℚ :=
  (m.find? (fun kv => kv.1 == k)).map Prod.snd

/-- Dictionary insert-or-replace on an association list. -/
def dict_insert (m : List (String × ℚ)) (k : String) (v : ℚ) : List (String × ℚ) :=
  m.filter (fun kv => kv.1 != k) ++ [(k, v)]

/-- Python's round: nearest integer, ties to even. -/
def py_round (q : ℚ) : ℤ :=
  let f := ⌊q⌋
  if q - f < 1/2 then f
  else if 1/2 < q - f then f + 1
  else if Even f then f else f + 1

/-- Embeds SignalValidator.generate_signal_key. -/
def generate_signal_key (s : VSignal) : String :=
  s.symbol ++ "_" ++ s.signal_type ++ "_" ++ s.direction

/-- Embeds SignalValidator.generate_signal_hash (sans md5): the key of
the dedup map is symbol, type, direction and the confidence rounded to
its 5-point band. -/
def generate_signal_hash (s : VSignal) : String :=
  s.symbol ++ "_" ++ s.signal_type ++ "_" ++ s.direction ++ "_" ++
    toString (py_round (s.confidence / 5) * 5)

/-- The hash-map cleaning performed inside is_duplicate: keep entries
strictly younger than ten minutes. -/
def clean_hashes (m : List (String × ℚ)) (now : ℚ) : List (String × ℚ) :=
  m.filter (fun kv => decide (now - 600 < kv.2))

/-- Embeds the membership test of is_duplicate (after cleaning). -/
def is_duplicate (cleaned : List (String × ℚ)) (signal_hash : String) : Bool :=
  (dict_get cleaned signal_hash).isSome

/-- The cooldown-map cleaning performed inside is_in_cooldown: keep
entries whose expiry lies strictly in the future. -/
def clean_cooldowns (m : List (String × ℚ)) (now : ℚ) : List (String × ℚ) :=
  m.filter (fun kv => decide (now < kv.2))

/-- Embeds the lookup-and-compare of is_in_cooldown (after cleaning). -/
def is_in_cooldown (cleaned : List (String × ℚ)) (signal_key : String) (now : ℚ) : Bool :=
  match dict_get cleaned signal_key with
  | some t => decide (now < t)
  | none => false

/-- The rate-window cleaning performed inside is_rate_limited: keep
approval instants strictly younger than one hour. -/
def clean_rate (l : List ℚ) (now : ℚ) : List ℚ :=
  l.filter (fun t => decide (now - 3600 < t))

/-- Embeds the count test of is_rate_limited (after cleaning). -/
def is_rate_limited (cleaned : List ℚ) (max_signals_per_hour : ℕ) : Bool :=
  max_signals_per_hour ≤ cleaned.length

/-- Embeds SignalValidator.validate at instant now: the four rules in
source order, each cleaning the map it consults (the cleanings persist
on the state even when the signal is rejected, as the source reassigns
the instance attributes), and on approval the _approve_signal updates:
append now to the rate window, set the cooldown expiry, record the
hash. -/
def validate (max_signals_per_hour : ℕ) (min_confidence cooldown_minutes : ℚ)
    (st : ValidatorState) (now : ℚ) (s : VSignal) :
    (Bool × Option RejectReason) × ValidatorState :=
  if s.confidence < min_confidence then ((false, some RejectReason.low_confidence), st)
  else
    let hashes := clean_hashes st.recent_hashes now
    let signal_hash := generate_signal_hash s
    if is_duplicate hashes signal_hash then
      ((false, some RejectReason.duplicate), { st with recent_hashes := hashes })
    else
      let signal_key := generate_signal_key s
      let cds := clean_cooldowns st.signal_cooldowns now
      if is_in_cooldown cds signal_key now then
        ((false, some RejectReason.cooldown),
         { st with recent_hashes := hashes, signal_cooldowns := cds })
      else
        let recent := clean_rate st.recent_signals now
        if is_rate_limited recent max_signals_per_hour then
          ((false, some RejectReason.rate_limit),
           ⟨recent, cds, hashes⟩)
        else
          ((true, none),
           ⟨recent ++ [now],
            dict_insert cds signal_key (now + cooldown_minutes * 60),
            dict_insert hashes signal_hash now⟩)

/-- Runs a sequence of validation attempts, each an (instant, signal)
pair, returning the final state and the instants of the approved ones. -/
def validator_run (max_signals_per_hour : ℕ) (min_confidence cooldown_minutes : ℚ) :
    ValidatorState → List (ℚ × VSignal) → ValidatorState × List ℚ
  | st, [] => (st, [])
  | st, (t, s) :: rest =>
      let step := validate max_signals_per_hour min_confidence cooldown_minutes st t s
      let tail := validator_run max_signals_per_hour min_confidence cooldown_minutes step.2 rest
      (tail.1, (if step.1.1 then [t] else []) ++ tail.2)

/-- Number of instants in l lying strictly after the cutoff c, i.e. the
size of a trailing window that opens at c. -/
def countStrict (l : List ℚ) (c : ℚ) : ℕ :=
  l.countP (fun x => decide (c < x))

/-! ## Alert queue

AlertQueue wraps an asyncio.PriorityQueue of QueuedAlert records.  The
dataclass QueuedAlert is declared with order=True, and every field
except priority carries compare=False, so the generated comparison is
on priority alone.  asyncio.PriorityQueue stores a Python list managed
by heapq.heappush and heapq.heappop; both are embedded below exactly,
with the loops of _siftdown and _siftup turned into structurally
recursive functions on an explicit fuel that provably dominates the
loop count (the sift-down position strictly decreases, the sift-up
position strictly increases below the length). -/

/-- Queue element: priority, and the enqueue timestamp modelled as a
monotone counter (datetime.now of the dataclass default factory is
non-decreasing across enqueues); the payload and retry fields take no
part in the comparison and are omitted. -/
structure QueuedAlert where
  priority : ℤ
  timestamp : ℕ
deriving DecidableEq

instance : Inhabited QueuedAlert := ⟨⟨0, 0⟩⟩

/-- List indexing with the default element, standing for the in-bounds
Python list accesses of heapq. -/
def hget : List QueuedAlert → ℕ → QueuedAlert
  | [], _ => default
  | a :: _, 0 => a
  | _ :: l, n + 1 => hget l n

/-- Parent index in the zero-based binary heap. -/
def parentIdx (i : ℕ) : ℕ := (i - 1) / 2

/-- Embeds the loop of heapq._siftdown: while the position is above
startpos, move the parent down when the new item compares below it,
else stop; finally write the new item at the resting position.  The
fuel argument bounds the iteration count; it is sufficient whenever
fuel is at least pos, since the position strictly decreases. -/
def siftdownGo (startpos : ℕ) (newitem : QueuedAlert) :
    ℕ → List QueuedAlert → ℕ → List QueuedAlert
  | 0, l, pos => l.set pos newitem
  | fuel + 1, l, pos =>
      if startpos < pos then
        let pp := parentIdx pos
        let parent := hget l pp
        if newitem.priority < parent.priority then
          siftdownGo startpos newitem fuel (l.set pos parent) pp
        else l.set pos newitem
      else l.set pos newitem

/-- Embeds heapq._siftdown(heap, startpos, pos), which reads the new
item from the list at pos. -/
def siftdown (l : List QueuedAlert) (startpos pos : ℕ) : List QueuedAlert :=
  siftdownGo startpos (hget l pos) pos l pos

/-- Embeds the descent loop of heapq._siftup: repeatedly move the
smaller child up into the hole (preferring the right child on a
non-strict tie, as the source tests not heap[child] < heap[right]),
until the hole has no left child; returns the list and the final hole
position.  Fuel at least the list length is sufficient, since the
position strictly increases while staying below the length. -/
def siftupGo : ℕ → List QueuedAlert → ℕ → List QueuedAlert × ℕ
  | 0, l, pos => (l, pos)
  | fuel + 1, l, pos =>
      let childpos := 2 * pos + 1
      if childpos < l.length then
        let rightpos := childpos + 1
        let c :=
          if rightpos < l.length ∧ ¬(hget l childpos).priority < (hget l rightpos).priority
          then rightpos else childpos
        siftupGo fuel (l.set pos (hget l c)) c
      else (l, pos)

/-- Embeds heapq._siftup(heap, pos): read the new item at pos, sink the
hole to a leaf, write the new item there, then sift it back down toward
pos. -/
def siftup (l : List QueuedAlert) (pos : ℕ) : List QueuedAlert :=
  let newitem := hget l pos
  let down := siftupGo l.length l pos
  siftdownGo pos newitem down.2 (down.1.set down.2 newitem) down.2

/-- Embeds heapq.heappush: append, then sift down from the new leaf. -/
def heappush (l : List QueuedAlert) (item : QueuedAlert) : List QueuedAlert :=
  siftdown (l ++ [item]) 0 l.length

/-- Embeds heapq.heappop: pop the last element; if the list remains
non-empty, return the root, move the last element to the root and sift
up.  An empty heap yields none (the source raises IndexError, which
asyncio guards by waiting). -/
def heappop (l : List QueuedAlert) : Option (QueuedAlert × List QueuedAlert) :=
  match l.getLast? with
  | none => none
  | some lastelt =>
      let rest := l.dropLast
      if rest.isEmpty then some (lastelt, rest)
      else some (hget rest 0, siftup (rest.set 0 lastelt) 0)

/-- The binary min-heap ordering on priorities that heapq maintains:
every non-root element is at least its parent. -/
def IsHeap (l : List QueuedAlert) : Prop :=
  ∀ i, 0 < i → i < l.length → (hget l (parentIdx i)).priority ≤ (hget l i).priority

/-- Executable check of the heap ordering. -/
def isHeapB (l : List QueuedAlert) : Bool :=
  (List.range l.length).all
    (fun i => decide (i = 0) || decide ((hget l (parentIdx i)).priority ≤ (hget l i).priority))

/-- State of AlertQueue: the backing heap plus the enqueue counter that
stands for the wall-clock enqueue timestamps. -/
structure AlertQueueState where
  heap : List QueuedAlert
  counter : ℕ
deriving DecidableEq

/-- Embeds AlertQueue.add (the put path of the priority queue): wrap the
alert with its priority and creation timestamp and heap-push it. -/
def alert_queue_add (st : AlertQueueState) (priority : ℤ) : AlertQueueState :=
  ⟨heappush st.heap ⟨priority, st.counter⟩, st.counter + 1⟩

/-- Embeds AlertQueue.get (the get path of the priority queue):
heap-pop the root. -/
def alert_queue_get (st : AlertQueueState) : Option (QueuedAlert × AlertQueueState) :=
  (heappop st.heap).map (fun p => (p.1, ⟨p.2, st.counter⟩))

/-- Dequeue repeatedly (fuel-bounded), returning the alerts in dequeue
order. -/
def alert_drain : ℕ → List QueuedAlert → List QueuedAlert
  | 0, _ => []
  | fuel + 1, l =>
      match heappop l with
      | none => []
      | some (r, l') => r :: alert_drain fuel l'

/-- Four equal-priority alerts enqueued in timestamp order 0, 1, 2, 3. -/
def four_equal_alerts : AlertQueueState :=
  alert_queue_add (alert_queue_add (alert_queue_add (alert_queue_add ⟨[], 0⟩ 1) 1) 1) 1

/-! ## Spec-side comparison definitions and concrete inputs -/

/-- Buy and sell volumes as the specification words them: read the vol
field only, never volume_usd.  Second definition kept for comparison
with calculate_volumes, which prefers volume_usd. -/
def claimed_calculate_volumes (trades : List Event) : ℚ × ℚ :=
  trades.foldl
    (fun acc t =>
      if t.side = 2 then (acc.1 + event_vol t, acc.2)
      else if t.side = 1 then (acc.1, acc.2 + event_vol t)
      else acc)
    (0, 0)

/-- Absorption volume as claim C5 words it: count a trade when its
volume is greater than OR EQUAL to the minimum order size.  Second
definition kept for comparison with check_absorption, which uses a
strict comparison. -/
def claimed_absorption_volume (absorption_min_order_usd : ℚ) (hunt_direction : String)
    (trades : List Event) : ℚ :=
  let target_side : ℤ := if hunt_direction = SHORT_HUNT then 2 else 1
  ((trades.filter
      (fun t => decide (t.side = target_side ∧ absorption_min_order_usd ≤ event_vol t))).map
    event_vol).sum

/-- A 20-trade window: 13 buys and 7 sells of 10000 dollars each, so
the buy ratio is exactly 0.65 and both large-order counts are large. -/
def boundary_trades : List Event :=
  List.replicate 13 ⟨2, some 10000, none, none⟩ ++ List.replicate 7 ⟨1, some 10000, none, none⟩

/-- A 10-trade window with buy ratio exactly one half. -/
def balanced_trades : List Event :=
  List.replicate 5 ⟨2, some 1000, none, none⟩ ++ List.replicate 5 ⟨1, some 1000, none, none⟩

/-- A cascade window with an exact tie: 100 dollars liquidated on each
side. -/
def tie_liquidations : List Event :=
  [⟨1, some 100, none, none⟩, ⟨2, some 100, none, none⟩]

/-- A cascade window dominated by long liquidations. -/
def long_heavy_liquidations : List Event :=
  [⟨1, some 200, none, none⟩, ⟨2, some 100, none, none⟩]

/-- A single buy trade of exactly 5000 dollars, the boundary of the
absorption minimum order size. -/
def boundary_absorption_trades : List Event :=
  [⟨2, some 5000, none, none⟩]

/-- A trade carrying a stale volume_usd key of 50000 next to a vol key
of 0. -/
def stale_volume_trade : Event :=
  ⟨2, some 0, some 50000, none⟩

/-- The market-context inputs of scenario S4: open interest up 6.5
percent, funding rate +0.0008, evaluated for a LONG signal. -/
def s4_context : Option MarketContext :=
  evaluate_context (some ⟨1000000, 65/10⟩) (some ⟨8/10000⟩) LONG

/-- Two validation attempts at instants 50 and 100 for distinct
symbols, used to exercise the rate limit with max one per hour. -/
def demo_validator_events : List (ℚ × VSignal) :=
  [(50, ⟨"BTCUSDT", STOP_HUNT, LONG, 80⟩), (100, ⟨"ETHUSDT", STOP_HUNT, LONG, 80⟩)]

/-- A one-element heap used to witness the priority-order theorem. -/
def singleton_queue : AlertQueueState := ⟨[⟨2, 7⟩], 8⟩

/-- A concrete stop-hunt signal used in witnesses. -/
def demo_stop_hunt : StopHuntSignal := ⟨SHORT_HUNT, 80, (95800, 96200)⟩

/-- A concrete order-flow signal used in witnesses. -/
def demo_order_flow : OrderFlowSignal := ⟨130000, 70000, 13/20, 13, 7, ACCUMULATION, 75, 20, 60000⟩

/-! # Theorems -/

/-! ## Helper lemmas about the folds of the analyzers -/

/-- The buy/sell fold of calculate_volumes computes the per-side
filtered sums. -/
theorem calculate_volumes_foldl (trades : List Event) : ∀ a : ℚ × ℚ,
    trades.foldl
      (fun acc t =>
        if t.side = 2 then (acc.1 + order_flow_vol t, acc.2)
        else if t.side = 1 then (acc.1, acc.2 + order_flow_vol t)
        else acc) a =
      (a.1 + side_volume_sum 2 trades, a.2 + side_volume_sum 1 trades) := by
  induction trades with
  | nil => intro a; simp [side_volume_sum]
  | cons e t ih =>
      intro a
      simp only [List.foldl_cons]
      rw [ih]
      by_cases h2 : e.side = 2
      · have h1 : ¬ e.side = 1 := by omega
        simp [side_volume_sum, h2, h1]
        ring
      · by_cases h1 : e.side = 1
        · simp [side_volume_sum, h2, h1]
          ring
        · simp [side_volume_sum, h2, h1]

/-- The volumes the order-flow analyzer computes are the side-2 and
side-1 sums of its (volume_usd-preferring) volume read. -/
theorem calculate_volumes_eq (trades : List Event) :
    calculate_volumes trades = (side_volume_sum 2 trades, side_volume_sum 1 trades) := by
  have h := calculate_volumes_foldl trades (0, 0)
  simpa [calculate_volumes] using h

/-- The direction fold of determine_direction accumulates the long and
short liquidation-volume sums in its last two components. -/
theorem determine_direction_foldl (liqs : List Event) : ∀ a : ℕ × ℕ × ℚ × ℚ,
    (liqs.foldl
      (fun (a : ℕ × ℕ × ℚ × ℚ) l =>
        if l.side = 1 then (a.1 + 1, a.2.1, a.2.2.1 + event_vol l, a.2.2.2)
        else if l.side = 2 then (a.1, a.2.1 + 1, a.2.2.1, a.2.2.2 + event_vol l)
        else a) a).2.2 =
      (a.2.2.1 + long_liq_volume liqs, a.2.2.2 + short_liq_volume liqs) := by
  induction liqs with
  | nil => intro a; simp [long_liq_volume, short_liq_volume]
  | cons e t ih =>
      intro a
      simp only [List.foldl_cons]
      rw [ih]
      by_cases h1 : e.side = 1
      · have h2 : ¬ e.side = 2 := by omega
        simp [long_liq_volume, short_liq_volume, h1, h2]
        ring
      · by_cases h2 : e.side = 2
        · simp [long_liq_volume, short_liq_volume, h1, h2]
          ring
        · simp [long_liq_volume, short_liq_volume, h1, h2]

/-- Conditional accumulation equals the sum over the filtered list. -/
theorem foldl_if_add_eq_filter_sum (p : Event → Prop) [DecidablePred p]
    (trades : List Event) : ∀ a : ℚ,
    trades.foldl (fun acc t => if p t then acc + event_vol t else acc) a =
      a + ((trades.filter (fun t => decide (p t))).map event_vol).sum := by
  induction trades with
  | nil => intro a; simp
  | cons e t ih =>
      intro a
      simp only [List.foldl_cons]
      by_cases hp : p e
      · rw [if_pos hp, ih]
        simp [hp]
        ring
      · rw [if_neg hp, ih]
        simp [hp]

/-! ## Claim C4: cascade direction classification -/

/-- Claim C4 as stated is false on the code: an exact tie between long
and short liquidation volume (here 100 dollars each, a positive total)
is classified LONG_HUNT with directional percentage one half, not
SHORT_HUNT, because the source tests long_liq_volume strictly greater
than short_liq_volume. -/
theorem determine_direction_tie_counterexample :
    long_liq_volume tie_liquidations = short_liq_volume tie_liquidations ∧
    long_liq_volume tie_liquidations + short_liq_volume tie_liquidations = 200 ∧
    determine_direction tie_liquidations = (LONG_HUNT, 1/2) ∧
    LONG_HUNT ≠ SHORT_HUNT := by
  refine ⟨?_, ?_, ?_, by decide⟩
  · norm_num [long_liq_volume, short_liq_volume, tie_liquidations, event_vol]
  · norm_num [long_liq_volume, short_liq_volume, tie_liquidations, event_vol]
  · norm_num [determine_direction, tie_liquidations, event_vol]

/-- Claim C4 amended: for a cascade window the detector classifies
SHORT_HUNT with percentage long/total exactly when long liquidation
volume is STRICTLY greater than short liquidation volume; when long is
less than or equal to short with a positive total it classifies
LONG_HUNT with percentage short/total (so an exact tie yields LONG_HUNT
with percentage one half), and a zero total yields UNKNOWN with one
half. -/
theorem determine_direction_characterization (liqs : List Event) :
    (long_liq_volume liqs + short_liq_volume liqs = 0 →
      determine_direction liqs = (UNKNOWN, 1/2)) ∧
    (short_liq_volume liqs < long_liq_volume liqs →
      long_liq_volume liqs + short_liq_volume liqs ≠ 0 →
      determine_direction liqs =
        (SHORT_HUNT, long_liq_volume liqs / (long_liq_volume liqs + short_liq_volume liqs))) ∧
    (long_liq_volume liqs ≤ short_liq_volume liqs →
      long_liq_volume liqs + short_liq_volume liqs ≠ 0 →
      determine_direction liqs =
        (LONG_HUNT, short_liq_volume liqs / (long_liq_volume liqs + short_liq_volume liqs))) := by
  have hfold := determine_direction_foldl liqs (0, 0, 0, 0)
  simp only [determine_direction]
  have h1 : (liqs.foldl
      (fun (a : ℕ × ℕ × ℚ × ℚ) l =>
        if l.side = 1 then (a.1 + 1, a.2.1, a.2.2.1 + event_vol l, a.2.2.2)
        else if l.side = 2 then (a.1, a.2.1 + 1, a.2.2.1, a.2.2.2 + event_vol l)
        else a) (0, 0, 0, 0)).2.2.1 = long_liq_volume liqs := by
    rw [hfold]; ring
  have h2 : (liqs.foldl
      (fun (a : ℕ × ℕ × ℚ × ℚ) l =>
        if l.side = 1 then (a.1 + 1, a.2.1, a.2.2.1 + event_vol l, a.2.2.2)
        else if l.side = 2 then (a.1, a.2.1 + 1, a.2.2.1, a.2.2.2 + event_vol l)
        else a) (0, 0, 0, 0)).2.2.2 = short_liq_volume liqs := by
    rw [hfold]; ring
  rw [h1, h2]
  refine ⟨fun hz => ?_, fun hlt hnz => ?_, fun hle hnz => ?_⟩
  · rw [if_pos hz]
  · rw [if_neg hnz, if_pos hlt]
  · rw [if_neg hnz, if_neg (by linarith)]

/-- Witness for the amended C4 characterization at a long-dominated
window: 200 long against 100 short classifies SHORT_HUNT. -/
theorem determine_direction_characterization_witness :
    short_liq_volume long_heavy_liquidations < long_liq_volume long_heavy_liquidations ∧
    determine_direction long_heavy_liquidations =
      (SHORT_HUNT, long_liq_volume long_heavy_liquidations /
        (long_liq_volume long_heavy_liquidations + short_liq_volume long_heavy_liquidations)) :=
  ⟨by norm_num [long_liq_volume, short_liq_volume, long_heavy_liquidations, event_vol],
   (determine_direction_characterization long_heavy_liquidations).2.1
     (by norm_num [long_liq_volume, short_liq_volume, long_heavy_liquidations, event_vol])
     (by norm_num [long_liq_volume, short_liq_volume, long_heavy_liquidations, event_vol])⟩

/-! ## Claim C5: absorption counting and the detected flag -/

/-- Claim C5 as stated is false on the code: a single buy trade of
exactly 5000 dollars (the default absorption_min_order_usd) contributes
nothing to the absorption volume, because check_absorption requires the
trade volume to be STRICTLY above the minimum, while the claim counts
trades at the boundary and would give 5000. -/
theorem check_absorption_boundary_counterexample :
    check_absorption 5000 SHORT_HUNT boundary_absorption_trades = 0 ∧
    claimed_absorption_volume 5000 SHORT_HUNT boundary_absorption_trades = 5000 ∧
    (0 : ℚ) ≠ 5000 := by
  refine ⟨?_, ?_, by norm_num⟩
  · norm_num [check_absorption, boundary_absorption_trades, event_vol]
  · norm_num [claimed_absorption_volume, boundary_absorption_trades, event_vol]

/-- Claim C5 amended: the absorption volume is the sum of volumes of
window trades on side 2 (SHORT_HUNT) or side 1 (otherwise) whose
single-trade volume is STRICTLY greater than absorption_min_order_usd
(so a trade of exactly 5000 is not counted), and the detected flag is
set if and only if that sum is at least the tier absorption
threshold. -/
theorem check_absorption_characterization :
    (∀ (absorption_min : ℚ) (dir : String) (trades : List Event),
      check_absorption absorption_min dir trades =
        ((trades.filter (fun t =>
            decide (t.side = (if dir = SHORT_HUNT then (2 : ℤ) else 1) ∧
              absorption_min < event_vol t))).map event_vol).sum) ∧
    (∀ (thr absorption_min : ℚ) (dir : String) (trades : List Event),
      absorption_detected thr absorption_min dir trades = true ↔
        thr ≤ check_absorption absorption_min dir trades) := by
  constructor
  · intro amin dir trades
    simp only [check_absorption]
    have h := foldl_if_add_eq_filter_sum
      (fun t => t.side = (if dir = SHORT_HUNT then (2 : ℤ) else 1) ∧ amin < event_vol t)
      trades 0
    rw [h]
    ring
  · intro thr amin dir trades
    simp [absorption_detected]

/-! ## Claim C3: the order-flow dead zone -/

/-- Claim C3 as stated is false on the code: a 20-trade window with buy
ratio exactly 0.65 (13 buys and 7 sells of 10000 dollars each) and 13
large buys produces an ACCUMULATION signal, because
determine_signal_type compares the ratio with greater-or-equal, so the
closed right endpoint of the claimed dead interval emits. -/
theorem order_flow_boundary_counterexample :
    10 ≤ boundary_trades.length ∧
    buy_ratio boundary_trades = 13/20 ∧
    (35/100 : ℚ) ≤ 13/20 ∧ (13/20 : ℚ) ≤ 65/100 ∧
    (order_flow_analyze 10000 (65/100) (35/100) 2000000 boundary_trades).map
      OrderFlowSignal.signal_type = some ACCUMULATION := by
  have hv : calculate_volumes boundary_trades = (130000, 70000) := by
    norm_num [calculate_volumes, boundary_trades, order_flow_vol, List.replicate]
  have hl : count_large_orders 10000 boundary_trades = (13, 7) := by
    norm_num [count_large_orders, boundary_trades, order_flow_vol, List.replicate]
  have hlen : boundary_trades.length = 20 := by decide
  refine ⟨by decide, ?_, by norm_num, by norm_num, ?_⟩
  · simp only [buy_ratio, hv]
    norm_num
  · simp only [order_flow_analyze, hv, hl, hlen]
    norm_num [determine_signal_type]

/-- Claim C3 amended: with the default ratios the analyzer emits no
signal for any window of at least 10 trades whose buy ratio lies
STRICTLY between 0.35 and 0.65; at the endpoints a signal can fire when
the matching large-order count is at least 3. -/
theorem order_flow_no_signal_open_interval
    (large_order_threshold volume_threshold : ℚ) (trades : List Event)
    (h10 : 10 ≤ trades.length)
    (hlo : 35/100 < buy_ratio trades) (hhi : buy_ratio trades < 65/100) :
    order_flow_analyze large_order_threshold (65/100) (35/100) volume_threshold trades = none := by
  simp only [order_flow_analyze]
  rw [if_neg (by omega)]
  by_cases htot : (calculate_volumes trades).1 + (calculate_volumes trades).2 = 0
  · exfalso
    have hr : buy_ratio trades = 0 := by
      simp [buy_ratio, htot]
    rw [hr] at hlo
    norm_num at hlo
  · rw [if_neg htot]
    have hr : (calculate_volumes trades).1 /
        ((calculate_volumes trades).1 + (calculate_volumes trades).2) = buy_ratio trades := rfl
    simp only [determine_signal_type, hr]
    rw [if_neg (by rintro ⟨h, -⟩; linarith), if_neg (by rintro ⟨h, -⟩; linarith)]

/-- Witness for the amended C3 theorem on a 10-trade window with buy
ratio exactly one half. -/
theorem order_flow_no_signal_open_interval_witness :
    10 ≤ balanced_trades.length ∧ (35/100 : ℚ) < buy_ratio balanced_trades ∧
    buy_ratio balanced_trades < 65/100 ∧
    order_flow_analyze 10000 (65/100) (35/100) 2000000 balanced_trades = none := by
  have hlo : (35/100 : ℚ) < buy_ratio balanced_trades := by
    norm_num [buy_ratio, calculate_volumes, balanced_trades, order_flow_vol, List.replicate]
  have hhi : buy_ratio balanced_trades < 65/100 := by
    norm_num [buy_ratio, calculate_volumes, balanced_trades, order_flow_vol, List.replicate]
  exact ⟨by decide, hlo, hhi,
    order_flow_no_signal_open_interval 10000 2000000 balanced_trades (by decide) hlo hhi⟩

/-! ## Claim C6: the volume field the order-flow analyzer reads -/

/-- Claim C6 is right about the intended wire format but false on the
code as written: calculate_volumes and count_large_orders read
volume_usd first and fall back to vol, so a stale volume_usd key of
50000 on a side-2 trade whose vol is 0 yields a buy volume of 50000 and
one large buy, while the vol-only reading demanded by the specification
yields (0, 0) and no large orders. -/
theorem calculate_volumes_prefers_stale_volume_usd :
    calculate_volumes [stale_volume_trade] = (50000, 0) ∧
    count_large_orders 10000 [stale_volume_trade] = (1, 0) ∧
    claimed_calculate_volumes [stale_volume_trade] = (0, 0) ∧
    ((50000 : ℚ), (0 : ℚ)) ≠ ((0 : ℚ), (0 : ℚ)) := by
  refine ⟨?_, ?_, ?_, by norm_num⟩
  · norm_num [calculate_volumes, stale_volume_trade, order_flow_vol]
  · norm_num [count_large_orders, stale_volume_trade, order_flow_vol]
  · norm_num [claimed_calculate_volumes, stale_volume_trade, event_vol]

/-! ## Claim C7: fused confidence -/

/-- A missing stop-hunt signal never aligns. -/
theorem signals_aligned_none_left (ofs : Option OrderFlowSignal) :
    signals_aligned none ofs = false := rfl

/-- A missing order-flow signal never aligns. -/
theorem signals_aligned_none_right (sh : Option StopHuntSignal) :
    signals_aligned sh none = false := by
  cases sh <;> rfl

/-- The if-chain of signals_aligned decides exactly the claimed pair
disjunction. -/
theorem signals_aligned_eq_decide (s : StopHuntSignal) (o : OrderFlowSignal) :
    signals_aligned (some s) (some o) =
      decide ((s.direction = SHORT_HUNT ∧ o.signal_type = ACCUMULATION) ∨
        (s.direction = LONG_HUNT ∧ o.signal_type = DISTRIBUTION)) := by
  simp only [signals_aligned]
  by_cases h1 : s.direction = SHORT_HUNT ∧ o.signal_type = ACCUMULATION
  · simp [h1]
  · by_cases h2 : s.direction = LONG_HUNT ∧ o.signal_type = DISTRIBUTION
    · simp [h1, h2]
    · simp [h1, h2]

/-- Claim C7: with at least one input present, the merged confidence is
the weighted average of the available confidences with weights 0.50
(stop hunt), 0.35 (order flow) and 0.15 (mean event confidence),
normalized by the sum of the weights present, and 10 is added with a
cap of 99 exactly when the pair is (SHORT_HUNT, ACCUMULATION) or
(LONG_HUNT, DISTRIBUTION). -/
theorem merge_confidence_weighted_average (sh : Option StopHuntSignal)
    (ofs : Option OrderFlowSignal) (evs : List EventSignal)
    (h : sh.isSome = true ∨ ofs.isSome = true ∨ evs ≠ []) :
    merge_confidence sh ofs evs = spec_fused_confidence sh ofs evs := by
  rcases sh with _ | s <;> rcases ofs with _ | o <;> by_cases he : evs.isEmpty
  · exfalso
    simp only [Option.isSome_none, List.isEmpty_iff] at h he
    tauto
  · simp only [merge_confidence, spec_fused_confidence, he, Option.isSome_none,
      signals_aligned_none_left, Bool.false_eq_true, if_false, if_true]
    rw [if_neg (by norm_num), div_eq_div_iff (by norm_num) (by norm_num)]
    ring
  · simp only [merge_confidence, spec_fused_confidence, he, Option.isSome_none,
      Option.isSome_some, signals_aligned_none_left, Bool.false_eq_true, if_false, if_true]
    rw [if_neg (by norm_num), div_eq_div_iff (by norm_num) (by norm_num)]
    ring
  · simp only [merge_confidence, spec_fused_confidence, he, Option.isSome_none,
      Option.isSome_some, signals_aligned_none_left, Bool.false_eq_true, if_false, if_true]
    rw [if_neg (by norm_num), div_eq_div_iff (by norm_num) (by norm_num)]
    ring
  · simp only [merge_confidence, spec_fused_confidence, he, Option.isSome_none,
      Option.isSome_some, signals_aligned_none_right, Bool.false_eq_true, if_false, if_true]
    rw [if_neg (by norm_num), div_eq_div_iff (by norm_num) (by norm_num)]
    ring
  · simp only [merge_confidence, spec_fused_confidence, he, Option.isSome_none,
      Option.isSome_some, signals_aligned_none_right, Bool.false_eq_true, if_false, if_true]
    rw [if_neg (by norm_num), div_eq_div_iff (by norm_num) (by norm_num)]
    ring
  · simp only [merge_confidence, spec_fused_confidence, he, Option.isSome_some,
      Bool.false_eq_true, if_false, if_true, signals_aligned_eq_decide, decide_eq_true_eq]
    rw [if_neg (by norm_num)]
    by_cases hb : (s.direction = SHORT_HUNT ∧ o.signal_type = ACCUMULATION) ∨
        (s.direction = LONG_HUNT ∧ o.signal_type = DISTRIBUTION)
    · rw [if_pos hb, if_pos hb]
      congr 1
      congr 1
      rw [div_eq_div_iff (by norm_num) (by norm_num)]
      ring
    · rw [if_neg hb, if_neg hb, div_eq_div_iff (by norm_num) (by norm_num)]
      ring
  · simp only [merge_confidence, spec_fused_confidence, he, Option.isSome_some,
      Bool.false_eq_true, if_false, if_true, signals_aligned_eq_decide, decide_eq_true_eq]
    rw [if_neg (by norm_num)]
    by_cases hb : (s.direction = SHORT_HUNT ∧ o.signal_type = ACCUMULATION) ∨
        (s.direction = LONG_HUNT ∧ o.signal_type = DISTRIBUTION)
    · rw [if_pos hb, if_pos hb]
      congr 1
      congr 1
      rw [div_eq_div_iff (by norm_num) (by norm_num)]
      ring
    · rw [if_neg hb, if_neg hb, div_eq_div_iff (by norm_num) (by norm_num)]
      ring

/-- Witness for C7 with an aligned stop-hunt and order-flow pair
present. -/
theorem merge_confidence_weighted_average_witness :
    merge_confidence (some demo_stop_hunt) (some demo_order_flow) [] =
      spec_fused_confidence (some demo_stop_hunt) (some demo_order_flow) [] :=
  merge_confidence_weighted_average (some demo_stop_hunt) (some demo_order_flow) []
    (Or.inl rfl)

/-! ## Claim C9: outcome labelling -/

/-- Claim C9: the tracker labels a LONG signal WIN at or above target,
LOSS at or below stop, then WIN from the midpoint of entry and target
upward, LOSS strictly below entry, else NEUTRAL; and the exact mirror
for SHORT (WIN at or below target, LOSS at or above stop, WIN at or
below entry minus half the entry-to-target distance, LOSS strictly
above entry, else NEUTRAL). -/
theorem evaluate_outcome_rule (entry target sl p : ℚ) :
    evaluate_outcome LONG entry target sl p =
      (if target ≤ p then WIN
       else if p ≤ sl then LOSS
       else if (entry + target) / 2 ≤ p then WIN
       else if p < entry then LOSS
       else NEUTRAL) ∧
    evaluate_outcome SHORT entry target sl p =
      (if p ≤ target then WIN
       else if sl ≤ p then LOSS
       else if p ≤ entry - (entry - target) / 2 then WIN
       else if entry < p then LOSS
       else NEUTRAL) := by
  have hhalf : entry + (target - entry) * (5/10) = (entry + target) / 2 := by ring
  have hhalf' : entry - (entry - target) * (5/10) = entry - (entry - target) / 2 := by ring
  constructor
  · simp only [evaluate_outcome, hhalf, if_pos trivial]
  · simp only [evaluate_outcome, hhalf']
    rw [if_neg (by decide)]

/-! ## Claim C8: the sliding rate window -/

/-- Counting with a larger cutoff counts no more instants. -/
theorem countStrict_cons (x : ℚ) (t : List ℚ) (c : ℚ) :
    countStrict (x :: t) c = countStrict t c + (if c < x then 1 else 0) := by
  simp [countStrict, List.countP_cons]

theorem countStrict_mono (l : List ℚ) {c c' : ℚ} (h : c ≤ c') :
    countStrict l c' ≤ countStrict l c := by
  induction l with
  | nil => simp [countStrict]
  | cons x t ih =>
      rw [countStrict_cons, countStrict_cons]
      split_ifs with h1 h2 h2
      · omega
      · exact absurd (lt_of_le_of_lt h h1) h2
      · omega
      · omega

/-- Cleaning the rate window does not change the count for any cutoff
at or after the cleaning cutoff. -/
theorem countStrict_clean_rate (l : List ℚ) {now c : ℚ} (h : now - 3600 ≤ c) :
    countStrict (clean_rate l now) c = countStrict l c := by
  induction l with
  | nil => simp [countStrict, clean_rate]
  | cons x t ih =>
      by_cases hkeep : now - 3600 < x
      · have hstep : clean_rate (x :: t) now = x :: clean_rate t now := by
          simp [clean_rate, List.filter_cons, hkeep]
        rw [hstep, countStrict_cons, countStrict_cons, ih]
      · have hcx : ¬ c < x := by
          intro hc
          exact hkeep (lt_of_le_of_lt h hc)
        have hstep : clean_rate (x :: t) now = clean_rate t now := by
          simp [clean_rate, List.filter_cons, hkeep]
        rw [hstep, ih, countStrict_cons, if_neg hcx]
        omega

/-- Counting distributes over append. -/
theorem countStrict_append (l₁ l₂ : List ℚ) (c : ℚ) :
    countStrict (l₁ ++ l₂) c = countStrict l₁ c + countStrict l₂ c := by
  simp [countStrict, List.countP_append]

/-- The length of the cleaned rate window is the strictly-trailing-hour
count of the un-cleaned one. -/
theorem clean_rate_length (l : List ℚ) (now : ℚ) :
    (clean_rate l now).length = countStrict l (now - 3600) := by
  simp [countStrict, clean_rate, List.countP_eq_length_filter]

/-- The count never exceeds the length. -/
theorem countStrict_le_length (l : List ℚ) (c : ℚ) :
    countStrict l c ≤ l.length :=
  List.countP_le_length _

/-- Case analysis of a single validate call as seen by the rate window:
a rejection leaves the window unchanged or merely cleaned, an approval
appends the instant to the cleaned window, and an approval can only
happen when the cleaned window is strictly below the budget. -/
theorem validate_recent_spec (maxH : ℕ) (minC cdm : ℚ) (st : ValidatorState) (now : ℚ)
    (s : VSignal) :
    ((validate maxH minC cdm st now s).1.1 = false ∧
      ((validate maxH minC cdm st now s).2.recent_signals = st.recent_signals ∨
        (validate maxH minC cdm st now s).2.recent_signals = clean_rate st.recent_signals now)) ∨
    ((validate maxH minC cdm st now s).1.1 = true ∧
      (validate maxH minC cdm st now s).2.recent_signals =
        clean_rate st.recent_signals now ++ [now] ∧
      (clean_rate st.recent_signals now).length < maxH) := by
  simp only [validate]
  split_ifs with h1 h2 h3 h4
  · exact Or.inl ⟨rfl, Or.inl rfl⟩
  · exact Or.inl ⟨rfl, Or.inl rfl⟩
  · exact Or.inl ⟨rfl, Or.inl rfl⟩
  · exact Or.inl ⟨rfl, Or.inr rfl⟩
  · refine Or.inr ⟨rfl, rfl, ?_⟩
    simp only [is_rate_limited, decide_eq_true_eq] at h4
    omega

/-- Induction workhorse for the rate-limit invariant: running the
validator from any state whose strictly-trailing-hour count at the
current lower time bound is within budget, with a ledger of earlier
approvals dominated by the state's window, keeps every later trailing
window within max_signals_per_hour. -/
theorem validator_run_aux (maxH : ℕ) (minC cdm : ℚ) :
    ∀ (events : List (ℚ × VSignal)) (st : ValidatorState) (τ : ℚ) (apps0 : List ℚ),
      List.Chain (· ≤ ·) τ (events.map Prod.fst) →
      (∀ c, τ - 3600 ≤ c → countStrict apps0 c ≤ countStrict st.recent_signals c) →
      countStrict st.recent_signals (τ - 3600) ≤ maxH →
      ∀ t, τ ≤ t → (∀ u ∈ events.map Prod.fst, u ≤ t) →
      countStrict (apps0 ++ (validator_run maxH minC cdm st events).2) (t - 3600) ≤ maxH := by
  intro events
  induction events with
  | nil =>
      intro st τ apps0 _ ha hb t ht _
      simp only [validator_run, List.append_nil]
      calc countStrict apps0 (t - 3600)
          ≤ countStrict st.recent_signals (t - 3600) := ha _ (by linarith)
        _ ≤ countStrict st.recent_signals (τ - 3600) := countStrict_mono _ (by linarith)
        _ ≤ maxH := hb
  | cons ev rest ih =>
      intro st τ apps0 hch ha hb t ht hall
      obtain ⟨t₁, s⟩ := ev
      simp only [List.map_cons] at hch hall
      have hτ₁ : τ ≤ t₁ := List.rel_of_chain_cons hch
      have hch' : List.Chain (· ≤ ·) t₁ (rest.map Prod.fst) := List.chain_of_chain_cons hch
      have ht₁ : t₁ ≤ t := hall t₁ (List.mem_cons_self _ _)
      have hall' : ∀ u ∈ rest.map Prod.fst, u ≤ t := fun u hu => hall u (List.mem_cons_of_mem _ hu)
      simp only [validator_run]
      rw [show apps0 ++ ((if (validate maxH minC cdm st t₁ s).1.1 then [t₁] else []) ++
            (validator_run maxH minC cdm (validate maxH minC cdm st t₁ s).2 rest).2) =
          (apps0 ++ (if (validate maxH minC cdm st t₁ s).1.1 then [t₁] else [])) ++
            (validator_run maxH minC cdm (validate maxH minC cdm st t₁ s).2 rest).2 from
        (List.append_assoc _ _ _).symm]
      refine ih (validate maxH minC cdm st t₁ s).2 t₁
        (apps0 ++ (if (validate maxH minC cdm st t₁ s).1.1 then [t₁] else [])) hch' ?_ ?_ t ht₁ hall'
      · intro c hc
        have hτc : τ - 3600 ≤ c := by linarith
        have hac := ha c hτc
        rcases validate_recent_spec maxH minC cdm st t₁ s with ⟨hb0, hr | hr⟩ | ⟨hb1, hr, -⟩
        · rw [hb0, hr]
          simpa using hac
        · rw [hb0, hr, countStrict_clean_rate _ hc]
          simpa using hac
        · rw [hb1, hr]
          simp only [if_true]
          rw [countStrict_append, countStrict_append, countStrict_clean_rate _ hc]
          omega
      · rcases validate_recent_spec maxH minC cdm st t₁ s with ⟨-, hr | hr⟩ | ⟨-, hr, hlen⟩
        · rw [hr]
          exact le_trans (countStrict_mono _ (by linarith)) hb
        · rw [hr, countStrict_clean_rate _ (le_refl _)]
          exact le_trans (countStrict_mono _ (by linarith)) hb
        · rw [hr, countStrict_append]
          rw [clean_rate_length] at hlen
          have h5 : countStrict (clean_rate st.recent_signals t₁) (t₁ - 3600) =
              countStrict st.recent_signals (t₁ - 3600) :=
            countStrict_clean_rate _ (le_refl _)
          have h6 : countStrict [t₁] (t₁ - 3600) ≤ 1 := countStrict_le_length _ _
          omega

/-- Claim C8: starting from a fresh validator and calling it at
non-decreasing instants, the number of approved signals in any trailing
3600-second window never exceeds max_signals_per_hour; an attempt whose
confidence, dedup and cooldown checks pass while the trailing-hour
approval count has reached max_signals_per_hour is rejected with reason
rate_limit; and a rejected attempt adds nothing to the sliding rate
window. -/
theorem validator_rate_limit_invariant :
    (∀ (maxH : ℕ) (minC cdm : ℚ) (events : List (ℚ × VSignal)) (t : ℚ),
      List.Chain' (· ≤ ·) (events.map Prod.fst) →
      (∀ u ∈ events.map Prod.fst, u ≤ t) →
      countStrict (validator_run maxH minC cdm initial_validator_state events).2 (t - 3600) ≤
        maxH) ∧
    (∀ (maxH : ℕ) (minC cdm : ℚ) (st : ValidatorState) (now : ℚ) (s : VSignal),
      ¬ s.confidence < minC →
      is_duplicate (clean_hashes st.recent_hashes now) (generate_signal_hash s) = false →
      is_in_cooldown (clean_cooldowns st.signal_cooldowns now) (generate_signal_key s) now = false →
      maxH ≤ countStrict st.recent_signals (now - 3600) →
      (validate maxH minC cdm st now s).1 = (false, some RejectReason.rate_limit)) ∧
    (∀ (maxH : ℕ) (minC cdm : ℚ) (st : ValidatorState) (now : ℚ) (s : VSignal),
      (validate maxH minC cdm st now s).1.1 = false →
      ∀ u ∈ (validate maxH minC cdm st now s).2.recent_signals, u ∈ st.recent_signals) := by
  refine ⟨?_, ?_, ?_⟩
  · intro maxH minC cdm events t hch hall
    cases events with
    | nil => simp [validator_run, countStrict]
    | cons ev rest =>
        have h := validator_run_aux maxH minC cdm (ev :: rest) initial_validator_state ev.1 []
          (List.Chain.cons (le_refl _) hch) (by intro c _; simp [countStrict])
          (by simp [initial_validator_state, countStrict]) t
          (hall ev.1 (by simp)) hall
        simpa using h
  · intro maxH minC cdm st now s h1 h2 h3 h4
    simp only [validate, if_neg h1, h2, Bool.false_eq_true, if_false, h3]
    have hrl : is_rate_limited (clean_rate st.recent_signals now) maxH = true := by
      simp only [is_rate_limited, clean_rate_length, decide_eq_true_eq]
      exact h4
    rw [if_pos hrl]
  · intro maxH minC cdm st now s
    simp only [validate]
    split_ifs with h1 h2 h3 h4
    · intro _ u hu
      exact hu
    · intro _ u hu
      exact hu
    · intro _ u hu
      exact hu
    · intro _ u hu
      exact List.mem_of_mem_filter hu
    · intro hfalse
      simp at hfalse

/-- Witness for C8: two approvable attempts at instants 50 and 100 with
a budget of one per hour leave at most one approval in the trailing
hour ending at instant 100. -/
theorem validator_rate_limit_invariant_witness :
    countStrict (validator_run 1 65 5 initial_validator_state demo_validator_events).2
      (100 - 3600) ≤ 1 :=
  validator_rate_limit_invariant.1 1 65 5 demo_validator_events 100
    (by norm_num [demo_validator_events, List.chain'_cons])
    (by norm_num [demo_validator_events])

/-! ## Claim C2: the alert queue

Helper lemmas about list indexing with a default, then the classical
binary-heap invariant proofs for the embedded heapq push and pop. -/

theorem hget_eq_getElem (l : List QueuedAlert) (i : ℕ) (h : i < l.length) :
    hget l i = l[i] := by
  induction l generalizing i with
  | nil => simp at h
  | cons a t ih =>
      cases i with
      | zero => rfl
      | succ n =>
          simp only [hget, List.getElem_cons_succ]
          exact ih n (by simpa using h)

theorem hget_set_eq (l : List QueuedAlert) (i : ℕ) (v : QueuedAlert) (h : i < l.length) :
    hget (l.set i v) i = v := by
  induction l generalizing i with
  | nil => simp at h
  | cons a t ih =>
      cases i with
      | zero => rfl
      | succ n =>
          simp only [List.set_cons_succ, hget]
          exact ih n (by simpa using h)

theorem hget_set_ne (l : List QueuedAlert) (i j : ℕ) (v : QueuedAlert) (h : i ≠ j) :
    hget (l.set i v) j = hget l j := by
  induction l generalizing i j with
  | nil => rfl
  | cons a t ih =>
      cases i with
      | zero =>
          cases j with
          | zero => exact absurd rfl h
          | succ m => rfl
      | succ n =>
          cases j with
          | zero => rfl
          | succ m =>
              simp only [List.set_cons_succ, hget]
              exact ih n m (by omega)

theorem hget_append_lt (l : List QueuedAlert) (x : QueuedAlert) (j : ℕ) (h : j < l.length) :
    hget (l ++ [x]) j = hget l j := by
  induction l generalizing j with
  | nil => simp at h
  | cons a t ih =>
      cases j with
      | zero => rfl
      | succ n =>
          simp only [List.cons_append, hget]
          exact ih n (by simpa using h)

theorem hget_append_len (l : List QueuedAlert) (x : QueuedAlert) :
    hget (l ++ [x]) l.length = x := by
  induction l with
  | nil => rfl
  | cons a t ih =>
      simpa only [List.cons_append, List.length_cons, hget] using ih

theorem hget_dropLast (l : List QueuedAlert) (j : ℕ) (h : j + 1 < l.length) :
    hget l.dropLast j = hget l j := by
  induction l generalizing j with
  | nil => simp at h
  | cons a t ih =>
      cases t with
      | nil => simp at h
      | cons b t' =>
          cases j with
          | zero => rfl
          | succ n =>
              simp only [List.dropLast_cons₂, hget]
              exact ih n (by simpa using h)

theorem getLast?_eq_hget (l : List QueuedAlert) (h : l ≠ []) :
    l.getLast? = some (hget l (l.length - 1)) := by
  induction l with
  | nil => exact absurd rfl h
  | cons a t ih =>
      cases t with
      | nil => rfl
      | cons b t' =>
          rw [List.getLast?_cons_cons, ih (by simp)]
          rfl

theorem parentIdx_lt {i : ℕ} (h : 0 < i) : parentIdx i < i := by
  simp only [parentIdx]
  omega

/-- Children of p sit at indices 2p+1 and 2p+2. -/
theorem parentIdx_left (p : ℕ) : parentIdx (2 * p + 1) = p := by
  simp only [parentIdx]
  omega

theorem parentIdx_right (p : ℕ) : parentIdx (2 * p + 2) = p := by
  simp only [parentIdx]
  omega

theorem child_of_parentIdx {i p : ℕ} (h0 : 0 < i) (h : parentIdx i = p) :
    i = 2 * p + 1 ∨ i = 2 * p + 2 := by
  simp only [parentIdx] at h
  omega

/-- In a heap the root carries a minimal priority. -/
theorem root_min (l : List QueuedAlert) (hH : IsHeap l) :
    ∀ i, i < l.length → (hget l 0).priority ≤ (hget l i).priority := by
  intro i
  induction i using Nat.strong_induction_on with
  | _ i ih =>
      intro hi
      rcases Nat.eq_zero_or_pos i with h0 | h0
      · rw [h0]
      · exact le_trans (ih (parentIdx i) (parentIdx_lt h0) (lt_trans (parentIdx_lt h0) hi))
          (hH i h0 hi)

/-- Writing the pending item at its resting hole yields a heap, given
that all pairs away from the hole are ordered, the hole's children
dominate the item, and the hole's parent (if any) sits below it. -/
theorem set_isHeap_of (l : List QueuedAlert) (pos : ℕ) (newitem : QueuedAlert)
    (hlen : pos < l.length)
    (H2 : ∀ i, 0 < i → i < l.length → i ≠ pos →
      (hget l (parentIdx i)).priority ≤ (hget l i).priority)
    (H3 : ∀ i, 0 < i → i < l.length → parentIdx i = pos →
      newitem.priority ≤ (hget l i).priority)
    (Hup : 0 < pos → (hget l (parentIdx pos)).priority ≤ newitem.priority) :
    IsHeap (l.set pos newitem) := by
  intro i hi hilen
  rw [List.length_set] at hilen
  by_cases hip : i = pos
  · subst hip
    have hpp : parentIdx i ≠ i := Nat.ne_of_lt (parentIdx_lt hi)
    rw [hget_set_ne _ _ _ _ (Ne.symm hpp), hget_set_eq _ _ _ hilen]
    exact Hup hi
  · rw [hget_set_ne _ _ _ _ (fun hp => hip hp.symm)]
    by_cases hpp : parentIdx i = pos
    · rw [hpp, hget_set_eq _ _ _ hlen]
      exact H3 i hi hilen hpp
    · rw [hget_set_ne _ _ _ _ (fun hp => hpp hp.symm)]
      exact H2 i hi hilen hip

/-- The sift toward the root restores the heap: given that every pair
away from the hole is ordered, the hole's children dominate the pending
item, and the hole's children dominate the hole's parent, the loop of
heapq._siftdown with startpos 0 produces a heap whenever its fuel is at
least the hole position. -/
theorem siftdownGo_isHeap :
    ∀ (fuel : ℕ) (l : List QueuedAlert) (pos : ℕ) (newitem : QueuedAlert),
      pos ≤ fuel → pos < l.length →
      (∀ i, 0 < i → i < l.length → i ≠ pos →
        (hget l (parentIdx i)).priority ≤ (hget l i).priority) →
      (∀ i, 0 < i → i < l.length → parentIdx i = pos →
        newitem.priority ≤ (hget l i).priority) →
      (∀ i, 0 < i → i < l.length → parentIdx i = pos → 0 < pos →
        (hget l (parentIdx pos)).priority ≤ (hget l i).priority) →
      IsHeap (siftdownGo 0 newitem fuel l pos) := by
  intro fuel
  induction fuel with
  | zero =>
      intro l pos newitem hfuel hlen H2 H3 _
      have hp0 : pos = 0 := by omega
      subst hp0
      simp only [siftdownGo]
      exact set_isHeap_of l 0 newitem hlen H2 H3 (fun h => absurd h (by omega))
  | succ fuel ih =>
      intro l pos newitem hfuel hlen H2 H3 H4
      simp only [siftdownGo]
      by_cases hpos : 0 < pos
      · rw [if_pos hpos]
        by_cases hlt : newitem.priority < (hget l (parentIdx pos)).priority
        · rw [if_pos hlt]
          have hpplt : parentIdx pos < pos := parentIdx_lt hpos
          refine ih (l.set pos (hget l (parentIdx pos))) (parentIdx pos) newitem
            (by omega) (by rw [List.length_set]; omega) ?_ ?_ ?_
          · intro i hi hilen hipp
            rw [List.length_set] at hilen
            by_cases hip : i = pos
            · subst hip
              rw [hget_set_eq _ _ _ hlen, hget_set_ne _ _ _ _ (by omega : i ≠ parentIdx i)]
            · rw [hget_set_ne _ _ _ _ (fun hp => hip hp.symm)]
              by_cases hpi : parentIdx i = pos
              · rw [hpi, hget_set_eq _ _ _ hlen]
                exact H4 i hi hilen hpi hpos
              · rw [hget_set_ne _ _ _ _ (fun hp => hpi hp.symm)]
                exact H2 i hi hilen hip
          · intro i hi hilen hpi
            rw [List.length_set] at hilen
            by_cases hip : i = pos
            · subst hip
              rw [hget_set_eq _ _ _ hlen]
              exact le_of_lt hlt
            · rw [hget_set_ne _ _ _ _ (fun hp => hip hp.symm)]
              refine le_of_lt (lt_of_lt_of_le hlt ?_)
              have hp := H2 i hi hilen hip
              rwa [hpi] at hp
          · intro i hi hilen hpi hppos
            rw [List.length_set] at hilen
            have hppp : parentIdx (parentIdx pos) ≠ pos := by
              have := parentIdx_lt hppos
              omega
            rw [hget_set_ne _ _ _ _ (fun hp => hppp hp.symm)]
            have hpair_pp : (hget l (parentIdx (parentIdx pos))).priority ≤
                (hget l (parentIdx pos)).priority :=
              H2 (parentIdx pos) hppos (by omega) (by omega)
            by_cases hip : i = pos
            · subst hip
              rw [hget_set_eq _ _ _ hlen]
              exact hpair_pp
            · rw [hget_set_ne _ _ _ _ (fun hp => hip hp.symm)]
              refine le_trans hpair_pp ?_
              have hp := H2 i hi hilen hip
              rwa [hpi] at hp
        · rw [if_neg hlt]
          exact set_isHeap_of l pos newitem hlen H2 H3 (fun _ => not_lt.mp hlt)
      · rw [if_neg hpos]
        exact set_isHeap_of l pos newitem hlen H2 H3 (fun h => absurd h hpos)

/-- The descent loop of heapq._siftup: starting from a hole whose
outgoing pairs may be broken but whose children dominate the hole's
parent, it keeps the length, ends at a position below the length with
no left child, and leaves every pair whose parent is not the final hole
ordered.  The fuel is sufficient whenever it is at least the length
minus the start position. -/
theorem siftupGo_spec :
    ∀ (fuel : ℕ) (l : List QueuedAlert) (pos : ℕ),
      l.length ≤ fuel + pos →
      pos < l.length →
      (∀ i, 0 < i → i < l.length → parentIdx i ≠ pos →
        (hget l (parentIdx i)).priority ≤ (hget l i).priority) →
      (0 < pos → ∀ i, 0 < i → i < l.length → parentIdx i = pos →
        (hget l (parentIdx pos)).priority ≤ (hget l i).priority) →
      (siftupGo fuel l pos).1.length = l.length ∧
      (siftupGo fuel l pos).2 < l.length ∧
      l.length ≤ 2 * (siftupGo fuel l pos).2 + 1 ∧
      (∀ i, 0 < i → i < l.length → parentIdx i ≠ (siftupGo fuel l pos).2 →
        (hget (siftupGo fuel l pos).1 (parentIdx i)).priority ≤
          (hget (siftupGo fuel l pos).1 i).priority) := by
  intro fuel
  induction fuel with
  | zero =>
      intro l pos hfuel hlen _ _
      exact absurd hlen (by omega)
  | succ fuel ih =>
      intro l pos hfuel hlen G2 G3
      simp only [siftupGo]
      by_cases hchild : 2 * pos + 1 < l.length
      · rw [if_pos hchild]
        suffices hgen : ∀ c, pos < c → c < l.length → parentIdx c = pos →
            (∀ o, 0 < o → o < l.length → parentIdx o = pos →
              (hget l c).priority ≤ (hget l o).priority) →
            (siftupGo fuel (l.set pos (hget l c)) c).1.length = l.length ∧
            (siftupGo fuel (l.set pos (hget l c)) c).2 < l.length ∧
            l.length ≤ 2 * (siftupGo fuel (l.set pos (hget l c)) c).2 + 1 ∧
            (∀ i, 0 < i → i < l.length →
              parentIdx i ≠ (siftupGo fuel (l.set pos (hget l c)) c).2 →
              (hget (siftupGo fuel (l.set pos (hget l c)) c).1 (parentIdx i)).priority ≤
                (hget (siftupGo fuel (l.set pos (hget l c)) c).1 i).priority) by
          by_cases hcond : 2 * pos + 1 + 1 < l.length ∧
              ¬(hget l (2 * pos + 1)).priority < (hget l (2 * pos + 1 + 1)).priority
          · rw [if_pos hcond]
            refine hgen (2 * pos + 1 + 1) (by omega) hcond.1
              (by simp only [parentIdx]; omega) ?_
            intro o ho holen hpo
            rcases child_of_parentIdx ho hpo with hoe | hoe
            · rw [hoe]
              exact not_lt.mp hcond.2
            · have hoc : o = 2 * pos + 1 + 1 := by omega
              rw [hoc]
          · rw [if_neg hcond]
            push_neg at hcond
            refine hgen (2 * pos + 1) (by omega) hchild
              (by simp only [parentIdx]; omega) ?_
            intro o ho holen hpo
            rcases child_of_parentIdx ho hpo with hoe | hoe
            · rw [hoe]
            · have hrlen : 2 * pos + 1 + 1 < l.length := by omega
              have := le_of_lt (hcond hrlen)
              have hoc : o = 2 * pos + 1 + 1 := by omega
              rw [hoc]
              exact this
        intro c hcpos hclen hparc hmin
        have hlen' : (l.set pos (hget l c)).length = l.length := List.length_set _ _ _
        have hres := ih (l.set pos (hget l c)) c
          (by rw [hlen']; omega) (by rw [hlen']; exact hclen) ?_ ?_
        · rw [hlen'] at hres
          exact hres
        · intro i hi hilen hpic
          rw [hlen'] at hilen
          by_cases hic : i = c
          · subst hic
            rw [hparc, hget_set_eq _ _ _ hlen,
              hget_set_ne _ _ _ _ (by omega : pos ≠ i)]
          · by_cases hip : i = pos
            · subst hip
              have hppos : 0 < i := hi
              have hpar_ne_c : parentIdx i ≠ c := by
                have := parentIdx_lt hi
                omega
              have hpar_ne_pos : parentIdx i ≠ i := by
                have := parentIdx_lt hi
                omega
              rw [hget_set_ne _ _ _ _ (fun hp => hpar_ne_pos hp.symm),
                hget_set_eq _ _ _ hlen]
              exact G3 hppos c (by omega) hclen hparc
            · rw [hget_set_ne _ _ _ _ (fun hp => hip hp.symm)]
              by_cases hpi : parentIdx i = pos
              · rw [hpi, hget_set_eq _ _ _ hlen]
                exact hmin i hi hilen hpi
              · rw [hget_set_ne _ _ _ _ (fun hp => hpi hp.symm)]
                exact G2 i hi hilen hpi
        · intro hc0 i hi hilen hpic
          rw [hlen'] at hilen
          have hic : i ≠ c := by
            have := parentIdx_lt hi
            omega
          have hipos : i ≠ pos := by
            have := parentIdx_lt hi
            omega
          rw [hparc, hget_set_eq _ _ _ hlen,
            hget_set_ne _ _ _ _ (fun hp => hipos hp.symm)]
          have hp := G2 i hi hilen (by omega : parentIdx i ≠ pos)
          rwa [hpic] at hp
      · rw [if_neg hchild]
        exact ⟨rfl, hlen, by omega, G2⟩

/-- Sifting up from the root restores the heap after a pop, given that
every pair not fed by the root is ordered. -/
theorem siftup_isHeap (l : List QueuedAlert) (h0 : 0 < l.length)
    (G2 : ∀ i, 0 < i → i < l.length → parentIdx i ≠ 0 →
      (hget l (parentIdx i)).priority ≤ (hget l i).priority) :
    IsHeap (siftup l 0) := by
  simp only [siftup]
  obtain ⟨hL, hf, hleaf, hpairs⟩ := siftupGo_spec l.length l 0 (by omega) h0 G2
    (fun h => absurd h (by omega))
  refine siftdownGo_isHeap (siftupGo l.length l 0).2
    ((siftupGo l.length l 0).1.set (siftupGo l.length l 0).2 (hget l 0))
    (siftupGo l.length l 0).2 (hget l 0) (le_refl _)
    (by rw [List.length_set, hL]; exact hf) ?_ ?_ ?_
  · intro i hi hilen hif
    rw [List.length_set, hL] at hilen
    have hpif : parentIdx i ≠ (siftupGo l.length l 0).2 := by
      intro hp
      rcases child_of_parentIdx hi hp with he | he <;> omega
    rw [hget_set_ne _ _ _ _ (fun hp => hpif hp.symm),
      hget_set_ne _ _ _ _ (fun hp => hif hp.symm)]
    exact hpairs i hi hilen hpif
  · intro i hi hilen hp
    rw [List.length_set, hL] at hilen
    rcases child_of_parentIdx hi hp with he | he <;> omega
  · intro i hi hilen hp _
    rw [List.length_set, hL] at hilen
    rcases child_of_parentIdx hi hp with he | he <;> omega

/-- heapq.heappush preserves the heap ordering. -/
theorem heappush_isHeap (l : List QueuedAlert) (hH : IsHeap l) (x : QueuedAlert) :
    IsHeap (heappush l x) := by
  simp only [heappush, siftdown, hget_append_len]
  refine siftdownGo_isHeap l.length (l ++ [x]) l.length x (le_refl _)
    (by simp) ?_ ?_ ?_
  · intro i hi hilen hip
    have hiL : i < l.length := by
      simp only [List.length_append, List.length_singleton] at hilen
      omega
    have hpL : parentIdx i < l.length := lt_trans (parentIdx_lt hi) hiL
    rw [hget_append_lt _ _ _ hiL, hget_append_lt _ _ _ hpL]
    exact hH i hi hiL
  · intro i hi hilen hpi
    simp only [List.length_append, List.length_singleton] at hilen
    simp only [parentIdx] at hpi
    omega
  · intro i hi hilen hpi _
    simp only [List.length_append, List.length_singleton] at hilen
    simp only [parentIdx] at hpi
    omega

/-- An element of a list is reached by some index. -/
theorem min_of_mem (l : List QueuedAlert) (hH : IsHeap l) (y : QueuedAlert) (hy : y ∈ l) :
    (hget l 0).priority ≤ y.priority := by
  obtain ⟨i, hi, hyi⟩ := List.getElem_of_mem hy
  rw [← hyi, ← hget_eq_getElem l i hi]
  exact root_min l hH i hi

/-- heapq.heappop returns the root, which carries a minimal priority,
and leaves a heap. -/
theorem heappop_spec (l : List QueuedAlert) (hH : IsHeap l) (r : QueuedAlert)
    (l' : List QueuedAlert) (h : heappop l = some (r, l')) :
    IsHeap l' ∧ ∀ y ∈ l, r.priority ≤ y.priority := by
  by_cases hnil : l = []
  · subst hnil
    simp [heappop] at h
  · have hlen0 : 0 < l.length := List.length_pos.mpr hnil
    rw [heappop, getLast?_eq_hget l hnil] at h
    simp only at h
    by_cases hone : l.dropLast.isEmpty
    · rw [if_pos hone] at h
      have hL1 : l.length = 1 := by
        have := List.length_dropLast l
        rw [List.isEmpty_iff_length_eq_zero] at hone
        omega
      have hr : r = hget l 0 := by
        have h0 : l.length - 1 = 0 := by omega
        rw [h0] at h
        exact (Prod.mk.injEq _ _ _ _ ▸ Option.some.injEq _ _ ▸ h).1.symm
      have hl' : l' = l.dropLast := by
        exact (Prod.mk.injEq _ _ _ _ ▸ Option.some.injEq _ _ ▸ h).2.symm
      constructor
      · intro i hi hilen
        rw [hl'] at hilen
        have := List.length_dropLast l
        omega
      · intro y hy
        rw [hr]
        exact min_of_mem l hH y hy
    · rw [if_neg hone] at h
      have hL2 : 2 ≤ l.length := by
        have := List.length_dropLast l
        rw [List.isEmpty_iff_length_eq_zero] at hone
        omega
      have hr : r = hget l.dropLast 0 := by
        exact (Prod.mk.injEq _ _ _ _ ▸ Option.some.injEq _ _ ▸ h).1.symm
      have hl' : l' = siftup (l.dropLast.set 0 (hget l (l.length - 1))) 0 := by
        exact (Prod.mk.injEq _ _ _ _ ▸ Option.some.injEq _ _ ▸ h).2.symm
      have hdl : l.dropLast.length = l.length - 1 := List.length_dropLast l
      have hr0 : r = hget l 0 := by
        rw [hr, hget_dropLast l 0 (by omega)]
      constructor
      · rw [hl']
        refine siftup_isHeap _ (by rw [List.length_set]; omega) ?_
        intro i hi hilen hpi
        rw [List.length_set, hdl] at hilen
        have hiL : i < l.length := by omega
        have hpL : parentIdx i < l.length - 1 := by
          have := parentIdx_lt hi
          omega
        rw [hget_set_ne _ _ _ _ (by omega : (0 : ℕ) ≠ i),
          hget_set_ne _ _ _ _ (fun hp => hpi hp.symm),
          hget_dropLast l i (by omega), hget_dropLast l (parentIdx i) (by omega)]
        exact hH i hi hiL
      · intro y hy
        rw [hr0]
        exact min_of_mem l hH y hy

/-- Claim C2 as stated is false on the code: QueuedAlert compares by
priority alone (its timestamp field carries compare=False), and heapq
is not stable, so FIFO within a priority level fails.  Four alerts of
priority 1 enqueued with timestamps 0, 1, 2, 3 drain in timestamp
order 0, 2, 1, 3: the alert enqueued third leaves before the alert
enqueued second. -/
theorem alert_queue_fifo_counterexample :
    (alert_drain 4 four_equal_alerts.heap).map QueuedAlert.priority = [1, 1, 1, 1] ∧
    (alert_drain 4 four_equal_alerts.heap).map QueuedAlert.timestamp = [0, 2, 1, 3] ∧
    [0, 2, 1, 3] ≠ ([0, 1, 2, 3] : List ℕ) := by
  refine ⟨by decide, by decide, by decide⟩

/-- Claim C2 amended: the alert queue dequeues in priority order (lower
number first): adding an alert preserves the heap ordering on
priorities, and a dequeue from a well-ordered queue returns an alert
whose priority is minimal among all queued alerts and leaves the queue
well ordered.  Within one priority level the dequeue order is NOT the
enqueue order, because the comparison ignores the enqueue timestamp. -/
theorem alert_queue_priority_order (st : AlertQueueState) (hH : IsHeap st.heap) :
    (∀ p : ℤ, IsHeap (alert_queue_add st p).heap) ∧
    (∀ (r : QueuedAlert) (st' : AlertQueueState), alert_queue_get st = some (r, st') →
      IsHeap st'.heap ∧ ∀ y ∈ st.heap, r.priority ≤ y.priority) := by
  constructor
  · intro p
    exact heappush_isHeap st.heap hH _
  · intro r st' hget'
    cases hpop : heappop st.heap with
    | none => simp [alert_queue_get, hpop] at hget'
    | some pr =>
        have hres := heappop_spec st.heap hH pr.1 pr.2 (by rw [hpop])
        simp only [alert_queue_get, hpop, Option.map_some', Option.some.injEq,
          Prod.mk.injEq] at hget'
        obtain ⟨h1, h2⟩ := hget'
        rw [← h1, ← h2]
        exact hres

/-- Witness for the amended C2 theorem at a one-element queue. -/
theorem alert_queue_priority_order_witness :
    IsHeap (alert_queue_add singleton_queue 1).heap := by
  have hH : IsHeap singleton_queue.heap := by
    intro i h1 h2
    simp [singleton_queue] at h2
    omega
  exact (alert_queue_priority_order singleton_queue hH).1 1

/-- Claim C1 is right about the specified design but false on the code:
main.py never instantiates or calls MarketContextFilter, so a validated
fused signal for an active coin is enqueued to the chat-bound alert
queue regardless of market context.  At the scenario-S4 inputs (open
interest up 6.5 percent, funding +0.0008, LONG) the context evaluates
to combined assessment UNFAVORABLE and evaluate in normal mode would
return passed = false, yet the analyze_and_alert chat decision, which
takes no context input, still enqueues; only the dashboard publication
part of the claim matches the code. -/
theorem context_filter_not_wired_counterexample :
    s4_context.map MarketContext.combined_assessment = some UNFAVORABLE ∧
    (filter_evaluate MODE_NORMAL true s4_context).passed = false ∧
    (filter_evaluate MODE_NORMAL true s4_context).assessment = UNFAVORABLE ∧
    analyze_chat_enqueued true true true = true ∧
    analyze_dashboard_published true true = true := by
  have hfa : assess_funding_alignment (8/10000) LONG = CAUTION := by
    have h1 : ¬(|(8 : ℚ)/10000| < 1/10000) := by
      rw [abs_of_pos (by norm_num : (0 : ℚ) < 8/10000)]
      norm_num
    simp only [assess_funding_alignment]
    rw [if_neg h1, if_pos trivial, if_pos (by norm_num : (5 : ℚ)/10000 < 8/10000)]
  have hoa : assess_oi_alignment (65/10) = SQUEEZE_RISK := by
    norm_num [assess_oi_alignment]
  have hcomb : assess_combined CAUTION SQUEEZE_RISK = UNFAVORABLE := by
    norm_num [assess_combined]
  have hctx : s4_context = some ⟨1000000, 8/10000, 65/10, CAUTION, SQUEEZE_RISK, UNFAVORABLE⟩ := by
    simp only [s4_context, evaluate_context, Option.isNone_some, Option.map_some',
      Option.getD_some, and_self, Bool.false_eq_true, if_false, hfa, hoa, hcomb]
  refine ⟨?_, ?_, ?_, by decide, by decide⟩
  · rw [hctx]; rfl
  · rw [hctx]; rfl
  · rw [hctx]; rfl

/-! ## Claim C10: tracking requires a stop-hunt price zone -/

/-- Claim C10: an approved fused signal is entered into outcome
tracking and persisted exactly when its metadata carries a stop-hunt
price zone with strictly positive maximum; metadata built without a
stop-hunt signal (as for every ACCUMULATION, DISTRIBUTION or
events-only signal, whose generated type is not STOP_HUNT only when no
stop-hunt signal contributed) carries the default zone (0, 0), so such
signals are never tracked and never persisted, and hence never receive
an outcome nor feed the learner. -/
theorem tracking_requires_stop_hunt_zone :
    (∀ (pending : List TrackedSignal) (direction : String) (m : SignalMetadata),
      (main_track_step pending direction (metadata_after_track_record m)).2 = true ↔
        0 < (tracked_price_zone m).2) ∧
    (∀ (ofs : Option OrderFlowSignal) (evs : List EventSignal),
      tracked_price_zone (metadata_after_track_record (build_metadata none ofs evs)) = (0, 0)) ∧
    (∀ (pending : List TrackedSignal) (direction : String)
        (ofs : Option OrderFlowSignal) (evs : List EventSignal),
      main_track_step pending direction (metadata_after_track_record (build_metadata none ofs evs)) =
        (pending, false)) ∧
    (∀ (sh : Option StopHuntSignal) (ofs : Option OrderFlowSignal),
      (determine_signal_type_and_direction sh ofs).1 ≠ STOP_HUNT → sh = none) := by
  have hzone : ∀ m : SignalMetadata,
      tracked_price_zone (metadata_after_track_record m) = tracked_price_zone m := by
    intro m
    cases hm : m.stop_hunt with
    | none => simp [metadata_after_track_record, tracked_price_zone, hm]
    | some shm => simp [metadata_after_track_record, tracked_price_zone, hm]
  refine ⟨?_, ?_, ?_, ?_⟩
  · intro pending direction m
    simp only [main_track_step, hzone m]
    by_cases h : 0 < (tracked_price_zone m).2
    · simp [h]
    · simp [h]
  · intro ofs evs
    rw [hzone]
    simp [build_metadata, tracked_price_zone]
  · intro pending direction ofs evs
    have h0 : tracked_price_zone (build_metadata none ofs evs) = (0, 0) := by
      simp [build_metadata, tracked_price_zone]
    simp [main_track_step, hzone, h0]
  · intro sh ofs h
    cases sh with
    | none => rfl
    | some s =>
        exfalso
        apply h
        simp only [determine_signal_type_and_direction]
        by_cases hd : s.direction = SHORT_HUNT
        · rw [if_pos hd]
        · rw [if_neg hd]

/-- Witness for C10 at concrete inputs: an order-flow-only signal has
type ACCUMULATION (not STOP_HUNT) and its stop-hunt input is none, and
its metadata leads to no tracking. -/
theorem tracking_requires_stop_hunt_zone_witness :
    (determine_signal_type_and_direction none (some demo_order_flow)).1 ≠ STOP_HUNT ∧
    ((none : Option StopHuntSignal) = none) ∧
    main_track_step [] LONG
      (metadata_after_track_record (build_metadata none (some demo_order_flow) [])) = ([], false) :=
  ⟨by decide,
   tracking_requires_stop_hunt_zone.2.2.2 none (some demo_order_flow) (by decide),
   tracking_requires_stop_hunt_zone.2.2.1 [] LONG (some demo_order_flow) []⟩
